import Mathlib

/-!
Verification of the snake simulation in
src/src/app/snek-module/game/game-controller.ts (the GameController class
and the Snake and SnakeSegment classes). TypeScript classes are embedded
as Lean structures; object mutation over the segment array becomes
explicit state passing over a list, with the head segment at index 0
(resetForStart pushes the head first, and every later push appends at the
end, so the head stays at index 0). The Board class, the utils module
(Vector2 arithmetic and MyMath.lerp), the FoodDispenser and the
PlayerMovementProcessor are imported by the source but are not part of
it; those are modelled from the spec and marked as such below.
-/

namespace Snek

/-- Modelled from the spec: a cell coordinate is an integer pair with
value equality (the Vector2 class of the utils module is not under src). -/
structure Vector2 where
  x : Int
  y : Int
deriving DecidableEq

/-- Modelled from the spec: componentwise vector addition (utils module,
not under src). -/
def Vector2.add (a b : Vector2) : Vector2 := ⟨a.x + b.x, a.y + b.y⟩

/-- Modelled from the spec: the zero vector, Vector2.zero of the utils
module (not under src). -/
def Vector2.zero : Vector2 := ⟨0, 0⟩

/-- Draw positions are continuous valued; they are embedded with rational
coordinates. -/
structure Vec2Q where
  x : ℚ
  y : ℚ
deriving DecidableEq

/-- Modelled from the spec: MyMath.lerp of the utils module (not under
src), standard linear interpolation from a to b with factor t. -/
def MyMath.lerp (a b t : ℚ) : ℚ := a + (b - a) * t

/-- SnakeSegment (game-controller.ts lines 265 to 305): isControllable and
the two positions are the class fields; the nextSegment object reference
(the segment toward the head that this one follows) is embedded as the
index of that segment in the chain list. -/
structure SnakeSegment where
  isControllable : Bool
  nextIdx : Option Nat
  tgtCellPos : Vector2
  drawCellPos : Vec2Q
deriving DecidableEq

/-- The SnakeSegment constructor (lines 277 to 283): the target cell is
the target cell of the given next segment when present, else Vector2.zero,
and the draw position is set to the target cell. -/
def SnakeSegment.make (nextIdx : Option Nat) (next : Option SnakeSegment)
    (isControllable : Bool) : SnakeSegment :=
  let tgt := (next.map (fun sg => sg.tgtCellPos)).getD Vector2.zero
  { isControllable := isControllable, nextIdx := nextIdx, tgtCellPos := tgt,
    drawCellPos := ⟨(tgt.x : ℚ), (tgt.y : ℚ)⟩ }

/-- SnakeSegment.moveToCell (lines 286 to 292): a no op unless the segment
is controllable; sets the target cell, and when instant also snaps the
draw position onto it. -/
def SnakeSegment.moveToCell (seg : SnakeSegment) (cellPos : Vector2)
    (instant : Bool) : SnakeSegment :=
  if seg.isControllable = false then seg
  else
    let seg1 := { seg with tgtCellPos := cellPos }
    if instant then
      { seg1 with drawCellPos := ⟨(cellPos.x : ℚ), (cellPos.y : ℚ)⟩ }
    else seg1

/-- SnakeSegment.moveDrawPosTowardsTgtPos (lines 300 to 304). A none value
of timeDelta stands for a non numeric (NaN) elapsed time, which the code
replaces by zero before use; the interpolation factor is timeDelta capped
above at one by Math.min. -/
def SnakeSegment.moveDrawPosTowardsTgtPos (seg : SnakeSegment)
    (timeDelta : Option ℚ) : SnakeSegment :=
  let td : ℚ :=
    match timeDelta with
    | none => 0
    | some t => t
  { seg with drawCellPos :=
      ⟨MyMath.lerp seg.drawCellPos.x (seg.tgtCellPos.x : ℚ) (min td 1),
       MyMath.lerp seg.drawCellPos.y (seg.tgtCellPos.y : ℚ) (min td 1)⟩ }

/-- SnakeSegment.followSegment (lines 295 to 298), as an operation on the
chain list: segment i overwrites its own target cell with the target cell
of its next segment toward the head, read from the current list state
(the source mutates objects in place; the list is the object store). -/
def followSegment (segs : List SnakeSegment) (i : Nat) : List SnakeSegment :=
  match segs[i]? with
  | none => segs
  | some seg =>
    match seg.nextIdx with
    | none => segs
    | some j =>
      match segs[j]? with
      | none => segs
      | some pred => segs.set i { seg with tgtCellPos := pred.tgtCellPos }

/-- The Snake class (lines 133 to 262): the segment chain, head at
index 0. -/
structure Snake where
  segments : List SnakeSegment
deriving DecidableEq

/-- The target cell of snakeHeadSegment, which sits at index 0 of the
chain after resetForStart. -/
def Snake.headTgtCell (s : Snake) : Vector2 :=
  match s.segments with
  | [] => Vector2.zero
  | seg :: _ => seg.tgtCellPos

/-- Snake.cellIsInsidePlayer (lines 174 to 180): the loop runs i from 1 up
to length minus 2, skipping the head at index 0 and the tail at the last
index. -/
def Snake.cellIsInsidePlayer (s : Snake) (tgtCell : Vector2) : Bool :=
  ((s.segments.drop 1).dropLast).any (fun seg => decide (seg.tgtCellPos = tgtCell))

/-- Snake.moveInDirection (lines 182 to 189): every segment, processed
from the tail toward the head over a reversed copy of the chain, follows
its next segment; then the head segment moves one step in the given
direction via moveToCell (not instant). -/
def Snake.moveInDirection (s : Snake) (dir : Vector2) : Snake :=
  let segs := ((List.range s.segments.length).reverse).foldl followSegment s.segments
  match segs with
  | [] => ⟨[]⟩
  | headSeg :: rest => ⟨headSeg.moveToCell (headSeg.tgtCellPos.add dir) false :: rest⟩

/-- The board width constant of GameController (line 22). -/
def boardNumCellsWide : Nat := 9

/-- Modelled from the spec: Board.cellIsInsideBoard (the Board class is
not under src): true iff both coordinates are at least zero and below the
board width. -/
def cellIsInsideBoard (n : Nat) (c : Vector2) : Bool :=
  decide (0 ≤ c.x ∧ c.x < (n : Int) ∧ 0 ≤ c.y ∧ c.y < (n : Int))

/-- Modelled from the spec: Board.getCenterCell (the Board class is not
under src), the floor of half the width in both coordinates. -/
def getCenterCell (n : Nat) : Vector2 := ⟨((n / 2 : Nat) : Int), ((n / 2 : Nat) : Int)⟩

/-- Snake.update (lines 161 to 172): the committed move direction is a
parameter because the PlayerMovementProcessor is not under src. Returns
the new chain and whether the death event was signalled on this tick.
Note that the source calls moveInDirection unconditionally, also when the
death branch was taken. -/
def Snake.update (s : Snake) (moveDirection : Vector2) : Snake × Bool :=
  let tgtCell := s.headTgtCell.add moveDirection
  let died := !(cellIsInsideBoard boardNumCellsWide tgtCell) || s.cellIsInsidePlayer tgtCell
  (s.moveInDirection moveDirection, died)

/-- Snake.growSegment (lines 239 to 243): a new segment constructed on the
last segment of the chain is pushed at the end. On an empty chain the
source reads an undefined last element and the constructor falls back to
Vector2.zero with no next reference; this case never arises after
resetForStart. -/
def Snake.growSegment (s : Snake) : Snake :=
  ⟨s.segments ++ [SnakeSegment.make
      (if s.segments.isEmpty then none else some (s.segments.length - 1))
      s.segments.getLast? false]⟩

/-- Snake.resetForStart (lines 245 to 261): clear the chain, snap the head
segment onto the board center (moveToCell with instant true), push it,
then grow ten segments. -/
def Snake.resetForStart (headSeg : SnakeSegment) (n : Nat) : Snake :=
  let s : Snake := ⟨[headSeg.moveToCell (getCenterCell n) true]⟩
  (((((((((s.growSegment).growSegment).growSegment).growSegment).growSegment).growSegment).growSegment).growSegment).growSegment).growSegment

/-- The game state enumeration of GameController (lines 122 to 127). -/
inductive GameState where
  | MainMenu
  | Playing
  | GameOver
  | Victorious
deriving DecidableEq

/-- The score and game state fields of GameController. -/
structure GameM where
  score : Nat
  gameState : GameState
deriving DecidableEq

/-- GameController.gameOver (lines 88 to 91): enter Victorious when won,
else GameOver (the interval timer it also clears is outside the state
embedded here). -/
def gameOver (g : GameM) (won : Bool) : GameM :=
  { g with gameState := if won then GameState.Victorious else GameState.GameOver }

/-- Modelled from the spec: Board.getUnoccupiedCells (the Board class is
not under src): all board cells minus the segment target cells minus the
active food cell, if any. -/
def getUnoccupiedCells (n : Nat) (segCells : List Vector2)
    (food : Option Vector2) : List Vector2 :=
  ((List.range n).flatMap
      (fun a => (List.range n).map (fun b => (⟨(a : Int), (b : Int)⟩ : Vector2)))).filter
    (fun c => !(decide (c ∈ segCells)) && !(decide (food = some c)))

/-- Modelled from the spec: FoodDispenser.spawnNewPrey (not under src)
chooses a cell from the currently unoccupied cells; the pick parameter
models the random draw. -/
def spawnNewPrey (unocc : List Vector2) (pick : Nat) : Option Vector2 :=
  unocc[pick % unocc.length]?

/-- GameController.onPreyEaten (lines 107 to 114): increment the score;
if unoccupied cells remain, spawn new prey, else the game is won. Returns
the new controller state and the spawned prey cell, if any. -/
def onPreyEaten (g : GameM) (n : Nat) (segCells : List Vector2)
    (food : Option Vector2) (pick : Nat) : GameM × Option Vector2 :=
  let g1 : GameM := { g with score := g.score + 1 }
  let unocc := getUnoccupiedCells n segCells food
  if unocc.length > 0 then (g1, spawnNewPrey unocc pick)
  else (gameOver g1 true, none)

/-- Modelled from the spec: step 6 of the per tick update in section 4.3,
the food check. The update under src never invokes eat (the wiring
between the tick and Snake.eat, and the prey event plumbing that the
GameController subscribes to, are not under src); this composes the
embedded Snake.update, Snake.growSegment (via Snake.eat, lines 229 to
232) and GameController.onPreyEaten as the spec directs: after a
surviving move, if the new head target cell equals the active food cell,
grow one segment and notify the controller. -/
def updateWithFood (s : Snake) (g : GameM) (dir : Vector2) (food : Vector2)
    (pick : Nat) : Snake × GameM × Option Vector2 × Bool :=
  let m := s.update dir
  if m.2 then (m.1, g, some food, true)
  else if m.1.headTgtCell = food then
    let s2 := m.1.growSegment
    let r := onPreyEaten g boardNumCellsWide
      (s2.segments.map (fun sg => sg.tgtCellPos)) none pick
    (s2, r.1, r.2, false)
  else (m.1, g, some food, false)

/-- Modelled from the spec: the Up direction vector. Canvas y grows
downward: the spec scenario has moving Up from (4,4) give (4,3). -/
def dirUp : Vector2 := ⟨0, -1⟩

/-- Modelled from the spec: the Down direction vector. -/
def dirDown : Vector2 := ⟨0, 1⟩

/-- Modelled from the spec: the Left direction vector. -/
def dirLeft : Vector2 := ⟨-1, 0⟩

/-- Modelled from the spec: the Right direction vector. -/
def dirRight : Vector2 := ⟨1, 0⟩

/-- The four direction vectors a committed movement direction ranges
over. -/
def directions : List Vector2 := [dirUp, dirDown, dirLeft, dirRight]

/-- Modelled from the spec: the exact opposite of a direction vector. -/
def Vector2.opposite (d : Vector2) : Vector2 := ⟨-d.x, -d.y⟩

/-- Modelled from the spec: the PlayerMovementProcessor state (the class
is not under src): a current committed direction plus at most one
buffered pending direction. -/
structure PlayerMovementProcessor where
  currentDirection : Vector2
  bufferedDirection : Option Vector2
deriving DecidableEq

/-- Modelled from the spec: before any input a default direction is
committed; Up is taken as the default. -/
def pmInit : PlayerMovementProcessor := ⟨dirUp, none⟩

/-- Modelled from the spec: directional key input; an input opposite to
the current committed direction is dropped, any other input replaces the
buffered pending direction. -/
def pmOnKeyDown (p : PlayerMovementProcessor) (d : Vector2) :
    PlayerMovementProcessor :=
  if d = p.currentDirection.opposite then p
  else { p with bufferedDirection := some d }

/-- Modelled from the spec: updateDirection commits and returns the
buffered direction when present, else keeps the current one. -/
def pmUpdateDirection (p : PlayerMovementProcessor) :
    PlayerMovementProcessor × Vector2 :=
  match p.bufferedDirection with
  | none => (p, p.currentDirection)
  | some d => (⟨d, none⟩, d)

/-- The four arrow keys the host input system maps to directions. -/
inductive ArrowKey where
  | up
  | down
  | left
  | right
deriving DecidableEq

/-- The direction vector of an arrow key. -/
def ArrowKey.dir : ArrowKey → Vector2
  | ArrowKey.up => dirUp
  | ArrowKey.down => dirDown
  | ArrowKey.left => dirLeft
  | ArrowKey.right => dirRight

/-- An input history event of the movement processor: an arrow key press
or a simulation tick (a call of updateDirection). -/
inductive PmEvent where
  | key (k : ArrowKey)
  | tick
deriving DecidableEq

/-- One event of the movement processor history. -/
def pmStep (p : PlayerMovementProcessor) (e : PmEvent) :
    PlayerMovementProcessor :=
  match e with
  | PmEvent.key k => pmOnKeyDown p k.dir
  | PmEvent.tick => (pmUpdateDirection p).1

/-- The movement processor state after an event history, from the initial
state. -/
def pmRun (es : List PmEvent) : PlayerMovementProcessor :=
  es.foldl pmStep pmInit

/-- The next references of a well formed chain: segment i follows segment
i minus 1, and the head at index 0 follows nothing. -/
def ChainNext (segs : List SnakeSegment) : Prop :=
  ∀ i, (h : i < segs.length) →
    (segs.get ⟨i, h⟩).nextIdx = if i = 0 then none else some (i - 1)

/-- Chain well formedness, established by resetForStart and preserved by
the tick: the chain is nonempty, the head at index 0 is controllable, and
the next references run toward the head. -/
def Snake.WF (s : Snake) : Prop :=
  s.segments ≠ [] ∧
  ((s.segments[0]?.map (fun sg => sg.isControllable)).getD false = true) ∧
  ChainNext s.segments

instance (segs : List SnakeSegment) : Decidable (ChainNext segs) := by
  unfold ChainNext
  infer_instance

instance (s : Snake) : Decidable s.WF := by
  unfold Snake.WF
  infer_instance

/-- A two segment snake with the head at (0,4) and the tail at (1,4),
used as a concrete input. -/
def snakeC1 : Snake :=
  ⟨[{ isControllable := true, nextIdx := none, tgtCellPos := ⟨0, 4⟩,
      drawCellPos := ⟨0, 4⟩ },
    { isControllable := false, nextIdx := some 0, tgtCellPos := ⟨1, 4⟩,
      drawCellPos := ⟨1, 4⟩ }]⟩

/-- A fresh controllable head segment, as built by the Snake constructor
(line 152): new SnakeSegment(null, true). -/
def headSegStart : SnakeSegment := SnakeSegment.make none none true

/-- The chain right after resetForStart on the nine wide board. -/
def snakeStart : Snake := Snake.resetForStart headSegStart 9

/-- A two segment snake with the head at (4,4) and the tail at (5,4),
used as a concrete input. -/
def snakeC6 : Snake :=
  ⟨[{ isControllable := true, nextIdx := none, tgtCellPos := ⟨4, 4⟩,
      drawCellPos := ⟨4, 4⟩ },
    { isControllable := false, nextIdx := some 0, tgtCellPos := ⟨5, 4⟩,
      drawCellPos := ⟨5, 4⟩ }]⟩

/-- The invariant of the movement processor: the committed direction is
one of the four directions, and a buffered direction is one of the four
and is not the opposite of the committed one. -/
def pmInv (p : PlayerMovementProcessor) : Prop :=
  p.currentDirection ∈ directions ∧
  ∀ d, p.bufferedDirection = some d → d ∈ directions ∧ d ≠ p.currentDirection.opposite

lemma getElem?_eq_get {α : Type} (l : List α) (i : Nat) (h : i < l.length) :
    l[i]? = some (l.get ⟨i, h⟩) := by simp

lemma followSegment_length (segs : List SnakeSegment) (i : Nat) :
    (followSegment segs i).length = segs.length := by
  unfold followSegment
  repeat' split
  all_goals simp

lemma foldl_followSegment_length (l : List Nat) (segs : List SnakeSegment) :
    (l.foldl followSegment segs).length = segs.length := by
  induction l generalizing segs with
  | nil => rfl
  | cons a t ih =>
    rw [List.foldl_cons, ih, followSegment_length]

lemma followSegment_eq_of_none (segs : List SnakeSegment) (i : Nat)
    (h : i < segs.length) (hn : (segs.get ⟨i, h⟩).nextIdx = none) :
    followSegment segs i = segs := by
  simp only [followSegment, getElem?_eq_get segs i h, hn]

lemma followSegment_eq_set (segs : List SnakeSegment) (i : Nat)
    (h : i < segs.length) (j : Nat) (hj : j < segs.length)
    (hn : (segs.get ⟨i, h⟩).nextIdx = some j) :
    followSegment segs i =
      segs.set i { segs.get ⟨i, h⟩ with tgtCellPos := (segs.get ⟨j, hj⟩).tgtCellPos } := by
  simp only [followSegment, getElem?_eq_get segs i h, hn, getElem?_eq_get segs j hj]

lemma chainNext_set (segs : List SnakeSegment) (hC : ChainNext segs) (k : Nat)
    (hk : k < segs.length) (X : SnakeSegment)
    (hX : X.nextIdx = (segs.get ⟨k, hk⟩).nextIdx) :
    ChainNext (segs.set k X) := by
  intro i h
  have hlen : i < segs.length := by simpa using h
  by_cases hik : i = k
  · subst hik
    have hg : (segs.set i X).get ⟨i, h⟩ = X := by
      rw [List.get_eq_getElem]
      exact List.getElem_set_self _
    rw [hg, hX]
    exact hC i hlen
  · have hg : (segs.set k X).get ⟨i, h⟩ = segs.get ⟨i, hlen⟩ := by
      rw [List.get_eq_getElem, List.get_eq_getElem]
      exact List.getElem_set_ne (fun hh => hik hh.symm) _
    rw [hg]
    exact hC i hlen

/-- Folding followSegment over the indices k-1 down to 0 leaves index 0
and the indices at or above k unchanged, and gives every index i with
1 le i lt k its old segment carrying the old target cell of index i-1. -/
lemma foldl_followSegment_getElem (k : Nat) :
    ∀ (segs : List SnakeSegment), ChainNext segs → k ≤ segs.length →
      ∀ i, (((List.range k).reverse).foldl followSegment segs)[i]? =
        if i = 0 ∨ k ≤ i then segs[i]?
        else segs[i]?.bind (fun sg => segs[i-1]?.map
          (fun p => { sg with tgtCellPos := p.tgtCellPos })) := by
  induction k with
  | zero =>
    intro segs _ _ i
    simp
  | succ k ih =>
    intro segs hC hk i
    have hklen : k < segs.length := Nat.lt_of_lt_of_le (Nat.lt_succ_self k) hk
    have hrange : ((List.range (k+1)).reverse) = k :: (List.range k).reverse := by
      rw [List.range_succ, List.reverse_append, List.reverse_singleton,
        List.singleton_append]
    rw [hrange, List.foldl_cons]
    by_cases hk0 : k = 0
    · subst hk0
      have h0 : followSegment segs 0 = segs := by
        apply followSegment_eq_of_none segs 0 hklen
        have := hC 0 hklen
        simpa using this
      rw [h0]
      have hcond : i = 0 ∨ 0 + 1 ≤ i := by omega
      rw [if_pos hcond]
      have := ih segs hC (Nat.le_of_lt hklen) i
      rw [this, if_pos (Or.inr (Nat.zero_le i))]
    · have hj : k - 1 < segs.length := by omega
      have hnext : (segs.get ⟨k, hklen⟩).nextIdx = some (k - 1) := by
        have := hC k hklen
        rwa [if_neg hk0] at this
      set X : SnakeSegment :=
        { segs.get ⟨k, hklen⟩ with tgtCellPos := (segs.get ⟨k - 1, hj⟩).tgtCellPos } with hXdef
      have hset : followSegment segs k = segs.set k X :=
        followSegment_eq_set segs k hklen (k - 1) hj hnext
      rw [hset]
      have hC1 : ChainNext (segs.set k X) := by
        apply chainNext_set segs hC k hklen X
        rfl
      have hlen1 : k ≤ (segs.set k X).length := by
        rw [List.length_set]; omega
      have hIH := ih (segs.set k X) hC1 hlen1 i
      rw [hIH]
      by_cases hi0 : i = 0
      · subst hi0
        rw [if_pos (Or.inl rfl), if_pos (Or.inl rfl)]
        exact List.getElem?_set_ne (by omega)
      · by_cases hik : k + 1 ≤ i
        · rw [if_pos (Or.inr (by omega : k ≤ i)), if_pos (Or.inr hik)]
          exact List.getElem?_set_ne (by omega)
        · by_cases hieqk : i = k
          · subst hieqk
            rw [if_pos (Or.inr (Nat.le_refl i)), if_neg (by omega)]
            rw [List.getElem?_set_self hklen]
            rw [getElem?_eq_get segs i hklen, getElem?_eq_get segs (i-1) hj]
            rfl
          · have hiltk : 1 ≤ i ∧ i < k := by omega
            rw [if_neg (by omega), if_neg (by omega)]
            have e1 : (segs.set k X)[i]? = segs[i]? :=
              List.getElem?_set_ne (by omega)
            have e2 : (segs.set k X)[i-1]? = segs[i-1]? :=
              List.getElem?_set_ne (by omega)
            rw [e1, e2]

/-- What one tick of movement does to a well formed chain: the length is
kept, the head takes one step in the direction, and every other segment
takes the target cell its predecessor toward the head held before the
tick. -/
lemma moveInDirection_spec (s : Snake) (dir : Vector2) (hWF : s.WF) :
    (s.moveInDirection dir).segments.length = s.segments.length ∧
    (∀ i, 1 ≤ i → i < s.segments.length →
      ((s.moveInDirection dir).segments[i]?.map (fun sg => sg.tgtCellPos)) =
        (s.segments[i-1]?.map (fun sg => sg.tgtCellPos))) ∧
    ((s.moveInDirection dir).segments[0]?.map (fun sg => sg.tgtCellPos)) =
      some (s.headTgtCell.add dir) := by
  obtain ⟨hne, hctrl, hC⟩ := hWF
  have hlen0 : 0 < s.segments.length := List.length_pos.mpr hne
  have hfold := foldl_followSegment_getElem s.segments.length s.segments hC
    (Nat.le_refl _)
  have hfoldlen : (((List.range s.segments.length).reverse).foldl
      followSegment s.segments).length = s.segments.length :=
    foldl_followSegment_length _ _
  cases hR : ((List.range s.segments.length).reverse).foldl followSegment
      s.segments with
  | nil =>
    rw [hR] at hfoldlen
    simp at hfoldlen
    omega
  | cons r0 rest =>
    have hmv : s.moveInDirection dir =
        ⟨r0.moveToCell (r0.tgtCellPos.add dir) false :: rest⟩ := by
      simp only [Snake.moveInDirection]
      rw [hR]
    have h00 := hfold 0
    rw [hR, if_pos (Or.inl rfl)] at h00
    have hr0 : s.segments[0]? = some r0 := by simpa using h00.symm
    have hctrl0 : r0.isControllable = true := by
      rw [hr0] at hctrl
      simpa using hctrl
    have hhead : s.headTgtCell = r0.tgtCellPos := by
      unfold Snake.headTgtCell
      cases hs : s.segments with
      | nil => exact absurd hs hne
      | cons a t =>
        rw [hs] at hr0
        simp at hr0
        rw [hr0]
    have hmtc : r0.moveToCell (r0.tgtCellPos.add dir) false =
        { r0 with tgtCellPos := r0.tgtCellPos.add dir } := by
      simp [SnakeSegment.moveToCell, hctrl0]
    refine ⟨?_, ?_, ?_⟩
    · rw [hmv]
      rw [hR] at hfoldlen
      simpa using hfoldlen
    · intro i h1 hlt
      rw [hmv]
      cases i with
      | zero => omega
      | succ m =>
        have hsm : m + 1 < s.segments.length := hlt
        have hsm1 : m < s.segments.length := by omega
        have hiq := hfold (m + 1)
        rw [hR, if_neg (by omega)] at hiq
        simp only [Nat.add_sub_cancel] at hiq ⊢
        rw [getElem?_eq_get s.segments (m+1) hsm,
          getElem?_eq_get s.segments m hsm1] at hiq
        have hLHS : (Snake.mk (r0.moveToCell (r0.tgtCellPos.add dir) false ::
            rest)).segments[m+1]? = (r0 :: rest)[m+1]? := by
          simp
        rw [hLHS, hiq, getElem?_eq_get s.segments m hsm1]
        rfl
    · rw [hmv]
      simp only [List.getElem?_cons_zero, Option.map_some]
      rw [hmtc, hhead]
      rfl

lemma moveInDirection_length (s : Snake) (dir : Vector2) :
    (s.moveInDirection dir).segments.length = s.segments.length := by
  have hfl := foldl_followSegment_length ((List.range s.segments.length).reverse)
    s.segments
  unfold Snake.moveInDirection
  cases hR : ((List.range s.segments.length).reverse).foldl followSegment
      s.segments with
  | nil =>
    rw [hR] at hfl
    simp only [List.length_nil] at hfl
    exact hfl
  | cons a t =>
    rw [hR] at hfl
    simpa using hfl

lemma growSegment_length (s : Snake) :
    s.growSegment.segments.length = s.segments.length + 1 := by
  simp [Snake.growSegment]

lemma growSegment_ne_nil (s : Snake) : s.growSegment.segments ≠ [] := by
  simp [Snake.growSegment]

lemma growSegment_head (s : Snake) (h : s.segments ≠ []) :
    s.growSegment.segments[0]? = s.segments[0]? := by
  have hl : 0 < s.segments.length := List.length_pos.mpr h
  simp only [Snake.growSegment]
  exact List.getElem?_append_left hl

lemma dir_ne_zero (d : Vector2) (hd : d ∈ directions) : d ≠ Vector2.zero := by
  simp only [directions, List.mem_cons, List.not_mem_nil, or_false] at hd
  rcases hd with rfl | rfl | rfl | rfl <;> decide

lemma add_ne_self_of_ne_zero (a d : Vector2) (hd : d ≠ Vector2.zero) :
    a.add d ≠ a := by
  obtain ⟨ax, ay⟩ := a
  obtain ⟨dx, dy⟩ := d
  intro h
  apply hd
  simp only [Vector2.add, Vector2.mk.injEq] at h
  simp only [Vector2.zero, Vector2.mk.injEq]
  omega

lemma mem_dropLast_iff_of_head_ne (a : SnakeSegment) (t : List SnakeSegment)
    (c : Vector2) (hne : a.tgtCellPos ≠ c) :
    ((∃ seg ∈ t.dropLast, seg.tgtCellPos = c) ↔
     (∃ seg ∈ (a :: t).dropLast, seg.tgtCellPos = c)) := by
  cases t with
  | nil => simp
  | cons b t2 =>
    rw [List.dropLast_cons₂]
    constructor
    · rintro ⟨seg, hm, hc⟩
      exact ⟨seg, List.mem_cons_of_mem a hm, hc⟩
    · rintro ⟨seg, hm, hc⟩
      rcases List.mem_cons.mp hm with h | h
      · subst h
        exact absurd hc hne
      · exact ⟨seg, h, hc⟩

lemma lerp_dist_le (a b f : ℚ) (h0 : 0 ≤ f) (h1 : f ≤ 1) :
    |MyMath.lerp a b f - b| ≤ |a - b| := by
  have he : MyMath.lerp a b f - b = (a - b) * (1 - f) := by
    unfold MyMath.lerp
    ring
  rw [he, abs_mul]
  have h2 : |1 - f| ≤ 1 := by
    rw [abs_of_nonneg (by linarith)]
    linarith
  calc |a - b| * |1 - f| ≤ |a - b| * 1 :=
        mul_le_mul_of_nonneg_left h2 (abs_nonneg _)
    _ = |a - b| := mul_one _

lemma pmInv_init : pmInv pmInit := by
  constructor
  · simp [pmInit, directions]
  · intro d h
    simp [pmInit] at h

lemma pmInv_step (p : PlayerMovementProcessor) (e : PmEvent) (hp : pmInv p) :
    pmInv (pmStep p e) := by
  obtain ⟨hcur, hbuf⟩ := hp
  cases e with
  | key k =>
    simp only [pmStep, pmOnKeyDown]
    by_cases hop : k.dir = p.currentDirection.opposite
    · rw [if_pos hop]
      exact ⟨hcur, hbuf⟩
    · rw [if_neg hop]
      refine ⟨hcur, ?_⟩
      intro d hd
      simp only [Option.some.injEq] at hd
      subst hd
      refine ⟨?_, hop⟩
      cases k <;> decide
  | tick =>
    simp only [pmStep, pmUpdateDirection]
    cases hb : p.bufferedDirection with
    | none => exact ⟨hcur, hbuf⟩
    | some d =>
      refine ⟨(hbuf d hb).1, ?_⟩
      intro d2 h2
      simp at h2

lemma pmInv_run (es : List PmEvent) : pmInv (pmRun es) := by
  unfold pmRun
  suffices h : ∀ p, pmInv p → pmInv (es.foldl pmStep p) from h pmInit pmInv_init
  induction es with
  | nil => exact fun p hp => hp
  | cons e t ih =>
    intro p hp
    rw [List.foldl_cons]
    exact ih _ (pmInv_step p e hp)

lemma dir_opposite_ne (d : Vector2) (hd : d ∈ directions) : d ≠ d.opposite := by
  simp only [directions, List.mem_cons, List.not_mem_nil, or_false] at hd
  rcases hd with rfl | rfl | rfl | rfl <;> decide

/-- C1 counterexample: with the head at (0,4) and the tail at (1,4),
moving Left makes the death condition hold and the death event fire, yet
the segment target cells still change: the tick is not a no op on the
simulation state, against the claim that no further mutation happens. -/
theorem update_death_tick_mutates_cex :
    (snakeC1.update dirLeft).2 = true ∧
    (snakeC1.update dirLeft).1.segments.map (fun sg => sg.tgtCellPos) ≠
      snakeC1.segments.map (fun sg => sg.tgtCellPos) := by
  decide

/-- C1 amended: on a tick where the death condition holds, the death
event is signalled, but the movement is still applied exactly as on an
ordinary tick (the source calls moveInDirection even after die): the
length is kept, each body segment takes the prior target cell of its
predecessor toward the head, and the head takes the candidate cell. -/
theorem update_death_tick_spec (s : Snake) (dir : Vector2) (hWF : s.WF)
    (hdeath : cellIsInsideBoard boardNumCellsWide (s.headTgtCell.add dir) = false ∨
      s.cellIsInsidePlayer (s.headTgtCell.add dir) = true) :
    (s.update dir).2 = true ∧
    (s.update dir).1.segments.length = s.segments.length ∧
    (∀ i, 1 ≤ i → i < s.segments.length →
      ((s.update dir).1.segments[i]?.map (fun sg => sg.tgtCellPos)) =
        (s.segments[i-1]?.map (fun sg => sg.tgtCellPos))) ∧
    ((s.update dir).1.segments[0]?.map (fun sg => sg.tgtCellPos)) =
      some (s.headTgtCell.add dir) := by
  refine ⟨?_, moveInDirection_spec s dir hWF⟩
  have h2 : (s.update dir).2 =
      (!(cellIsInsideBoard boardNumCellsWide (s.headTgtCell.add dir)) ||
        s.cellIsInsidePlayer (s.headTgtCell.add dir)) := rfl
  rw [h2]
  rcases hdeath with h | h
  · simp [h]
  · simp [h]

/-- C1 witness: the amended statement evaluated on the two segment snake
moving Left off the board. -/
theorem update_death_tick_spec_w :
    (snakeC1.update dirLeft).2 = true ∧
    (snakeC1.update dirLeft).1.segments.length = snakeC1.segments.length ∧
    ((snakeC1.update dirLeft).1.segments[1]?.map (fun sg => sg.tgtCellPos)) =
      (snakeC1.segments[0]?.map (fun sg => sg.tgtCellPos)) ∧
    ((snakeC1.update dirLeft).1.segments[0]?.map (fun sg => sg.tgtCellPos)) =
      some (snakeC1.headTgtCell.add dirLeft) :=
  ⟨(update_death_tick_spec snakeC1 dirLeft (by decide) (by decide)).1,
   (update_death_tick_spec snakeC1 dirLeft (by decide) (by decide)).2.1,
   (update_death_tick_spec snakeC1 dirLeft (by decide) (by decide)).2.2.1 1
     (by decide) (by decide),
   (update_death_tick_spec snakeC1 dirLeft (by decide) (by decide)).2.2.2⟩

/-- C2: on a tick whose candidate head cell is inside the board and not
the target cell of a segment other than the vacating tail, the chain
length is unchanged, every body segment takes the target cell its
predecessor toward the head held before the tick, and the head takes the
candidate cell. -/
theorem update_normal_move (s : Snake) (dir : Vector2) (hWF : s.WF)
    (hin : cellIsInsideBoard boardNumCellsWide (s.headTgtCell.add dir) = true)
    (hfree : ∀ seg ∈ s.segments.dropLast,
      seg.tgtCellPos ≠ s.headTgtCell.add dir) :
    (s.update dir).1.segments.length = s.segments.length ∧
    (∀ i, 1 ≤ i → i < s.segments.length →
      ((s.update dir).1.segments[i]?.map (fun sg => sg.tgtCellPos)) =
        (s.segments[i-1]?.map (fun sg => sg.tgtCellPos))) ∧
    ((s.update dir).1.segments[0]?.map (fun sg => sg.tgtCellPos)) =
      some (s.headTgtCell.add dir) :=
  moveInDirection_spec s dir hWF

/-- C2 witness: the freshly reset snake moving Up from the center. -/
theorem update_normal_move_w :
    (snakeStart.update dirUp).1.segments.length = snakeStart.segments.length ∧
    ((snakeStart.update dirUp).1.segments[1]?.map (fun sg => sg.tgtCellPos)) =
      (snakeStart.segments[0]?.map (fun sg => sg.tgtCellPos)) ∧
    ((snakeStart.update dirUp).1.segments[0]?.map (fun sg => sg.tgtCellPos)) =
      some (snakeStart.headTgtCell.add dirUp) :=
  ⟨(update_normal_move snakeStart dirUp (by decide) (by decide) (by decide)).1,
   (update_normal_move snakeStart dirUp (by decide) (by decide) (by decide)).2.1 1
     (by decide) (by decide),
   (update_normal_move snakeStart dirUp (by decide) (by decide) (by decide)).2.2⟩

/-- C3: the death event is signalled on a tick iff the candidate head
cell (the head target cell plus the committed direction, one of the four
direction vectors) is outside the board, or equals the target cell of a
segment other than the current tail. -/
theorem update_death_iff (s : Snake) (dir : Vector2) (hWF : s.WF)
    (hdir : dir ∈ directions) :
    (s.update dir).2 = true ↔
      (¬ (cellIsInsideBoard boardNumCellsWide (s.headTgtCell.add dir) = true) ∨
       ∃ seg ∈ s.segments.dropLast,
         seg.tgtCellPos = s.headTgtCell.add dir) := by
  obtain ⟨hne, hctrl, hC⟩ := hWF
  have hz : dir ≠ Vector2.zero := dir_ne_zero dir hdir
  have hcne : s.headTgtCell.add dir ≠ s.headTgtCell :=
    add_ne_self_of_ne_zero s.headTgtCell dir hz
  have h2 : (s.update dir).2 =
      (!(cellIsInsideBoard boardNumCellsWide (s.headTgtCell.add dir)) ||
        s.cellIsInsidePlayer (s.headTgtCell.add dir)) := rfl
  rw [h2, Bool.or_eq_true, Bool.not_eq_true']
  have hip : (s.cellIsInsidePlayer (s.headTgtCell.add dir) = true) ↔
      (∃ seg ∈ (s.segments.drop 1).dropLast,
        seg.tgtCellPos = s.headTgtCell.add dir) := by
    simp [Snake.cellIsInsidePlayer, List.any_eq_true]
  rw [hip]
  cases hs : s.segments with
  | nil => exact absurd hs hne
  | cons a t =>
    have hat : a.tgtCellPos = s.headTgtCell := by
      unfold Snake.headTgtCell
      rw [hs]
    simp only [List.drop_one, List.tail_cons]
    have hiff := mem_dropLast_iff_of_head_ne a t (s.headTgtCell.add dir)
      (by rw [hat]; exact fun hh => hcne hh.symm)
    exact or_congr Bool.eq_false_iff hiff

/-- C3 witness: the iff evaluated on the freshly reset snake moving Up. -/
theorem update_death_iff_w :
    (snakeStart.update dirUp).2 = true ↔
      (¬ (cellIsInsideBoard boardNumCellsWide
          (snakeStart.headTgtCell.add dirUp) = true) ∨
       ∃ seg ∈ snakeStart.segments.dropLast,
         seg.tgtCellPos = snakeStart.headTgtCell.add dirUp) :=
  update_death_iff snakeStart dirUp (by decide) (by decide)

/-- C4 counterexample: after resetForStart on the nine wide board the
chain holds 11 segments, not the 10 the claim states. -/
theorem resetForStart_length_cex :
    (Snake.resetForStart headSegStart 9).segments.length ≠ 10 := by
  decide

/-- C4 amended: after a reset the chain holds exactly 11 segments (the
head pushed first plus ten grown), the head target cell is the board
center, and the head draw position is snapped onto the center without
interpolation. -/
theorem resetForStart_spec (headSeg : SnakeSegment)
    (hc : headSeg.isControllable = true) :
    (Snake.resetForStart headSeg 9).segments.length = 11 ∧
    ((Snake.resetForStart headSeg 9).segments[0]?.map (fun sg => sg.tgtCellPos)) =
      some (getCenterCell 9) ∧
    ((Snake.resetForStart headSeg 9).segments[0]?.map (fun sg => sg.drawCellPos)) =
      some ⟨((getCenterCell 9).x : ℚ), ((getCenterCell 9).y : ℚ)⟩ := by
  have hmove : headSeg.moveToCell (getCenterCell 9) true =
      { headSeg with
          tgtCellPos := getCenterCell 9
          drawCellPos := ⟨((getCenterCell 9).x : ℚ), ((getCenterCell 9).y : ℚ)⟩ } := by
    simp [SnakeSegment.moveToCell, hc]
  have hstep : ∀ (s : Snake), s.segments ≠ [] →
      (s.growSegment.growSegment.growSegment.growSegment.growSegment.growSegment.growSegment.growSegment.growSegment.growSegment).segments[0]? =
        s.segments[0]? := by
    intro s h
    rw [growSegment_head _ (growSegment_ne_nil _),
      growSegment_head _ (growSegment_ne_nil _),
      growSegment_head _ (growSegment_ne_nil _),
      growSegment_head _ (growSegment_ne_nil _),
      growSegment_head _ (growSegment_ne_nil _),
      growSegment_head _ (growSegment_ne_nil _),
      growSegment_head _ (growSegment_ne_nil _),
      growSegment_head _ (growSegment_ne_nil _),
      growSegment_head _ (growSegment_ne_nil _),
      growSegment_head _ h]
  simp only [Snake.resetForStart]
  refine ⟨?_, ?_, ?_⟩
  · simp [growSegment_length]
  · rw [hstep ⟨[headSeg.moveToCell (getCenterCell 9) true]⟩ (by simp)]
    rw [hmove]
    simp
  · rw [hstep ⟨[headSeg.moveToCell (getCenterCell 9) true]⟩ (by simp)]
    rw [hmove]
    simp

/-- C4 witness: the amended statement evaluated on a fresh controllable
head segment. -/
theorem resetForStart_spec_w :
    (Snake.resetForStart headSegStart 9).segments.length = 11 ∧
    ((Snake.resetForStart headSegStart 9).segments[0]?.map (fun sg => sg.tgtCellPos)) =
      some (getCenterCell 9) ∧
    ((Snake.resetForStart headSegStart 9).segments[0]?.map (fun sg => sg.drawCellPos)) =
      some ⟨((getCenterCell 9).x : ℚ), ((getCenterCell 9).y : ℚ)⟩ :=
  resetForStart_spec headSegStart (by decide)

/-- C7: growing a nonempty chain appends exactly one segment: the length
rises by one, the old segments keep their places (dropLast of the new
chain is the old chain), the new tail refers to the former tail as its
next segment toward the head, and its target cell equals the former tail
target cell at the moment of growth. -/
theorem growSegment_spec (s : Snake) (hne : s.segments ≠ []) :
    s.growSegment.segments.length = s.segments.length + 1 ∧
    s.growSegment.segments.dropLast = s.segments ∧
    (s.growSegment.segments.getLast?.map (fun sg => sg.nextIdx)) =
      some (some (s.segments.length - 1)) ∧
    (s.growSegment.segments.getLast?.map (fun sg => sg.tgtCellPos)) =
      s.segments.getLast?.map (fun sg => sg.tgtCellPos) := by
  have hie : s.segments.isEmpty = false := by
    rw [List.isEmpty_eq_false]
    exact hne
  obtain ⟨lastSeg, hlast⟩ : ∃ z, s.segments.getLast? = some z := by
    cases hl : s.segments.getLast? with
    | none => exact absurd (List.getLast?_eq_none_iff.mp hl) hne
    | some z => exact ⟨z, rfl⟩
  refine ⟨growSegment_length s, ?_, ?_, ?_⟩
  · simp [Snake.growSegment, List.dropLast_concat]
  · simp [Snake.growSegment, List.getLast?_concat, SnakeSegment.make, hie]
  · simp [Snake.growSegment, List.getLast?_concat, SnakeSegment.make, hlast]

/-- C7 witness: growth of the two segment snake. -/
theorem growSegment_spec_w :
    snakeC1.growSegment.segments.length = snakeC1.segments.length + 1 ∧
    snakeC1.growSegment.segments.dropLast = snakeC1.segments ∧
    (snakeC1.growSegment.segments.getLast?.map (fun sg => sg.nextIdx)) =
      some (some (snakeC1.segments.length - 1)) ∧
    (snakeC1.growSegment.segments.getLast?.map (fun sg => sg.tgtCellPos)) =
      snakeC1.segments.getLast?.map (fun sg => sg.tgtCellPos) :=
  growSegment_spec snakeC1 (by decide)

/-- C5: a food eaten event ends in Victorious iff it leaves zero
unoccupied cells; when at least one unoccupied cell remains, new prey is
spawned and the state stays Playing; the death path of gameOver never
yields Victorious. -/
theorem onPreyEaten_victorious_iff (g : GameM) (segCells : List Vector2)
    (food : Option Vector2) (pick : Nat)
    (hg : g.gameState = GameState.Playing) :
    ((onPreyEaten g boardNumCellsWide segCells food pick).1.gameState =
        GameState.Victorious ↔
      getUnoccupiedCells boardNumCellsWide segCells food = []) ∧
    (getUnoccupiedCells boardNumCellsWide segCells food ≠ [] →
      (onPreyEaten g boardNumCellsWide segCells food pick).1.gameState =
        GameState.Playing ∧
      ((onPreyEaten g boardNumCellsWide segCells food pick).2).isSome = true) ∧
    (∀ g2 : GameM, (gameOver g2 false).gameState = GameState.GameOver) := by
  by_cases hu : getUnoccupiedCells boardNumCellsWide segCells food = []
  · refine ⟨?_, ?_, ?_⟩
    · simp [onPreyEaten, hu, gameOver]
    · intro h
      exact absurd hu h
    · intro g2
      simp [gameOver]
  · have hlen : 0 < (getUnoccupiedCells boardNumCellsWide segCells food).length :=
      List.length_pos.mpr hu
    have hbr : (onPreyEaten g boardNumCellsWide segCells food pick) =
        ({ g with score := g.score + 1 },
          spawnNewPrey (getUnoccupiedCells boardNumCellsWide segCells food) pick) := by
      simp [onPreyEaten, hlen]
    refine ⟨?_, ?_, ?_⟩
    · rw [hbr]
      simp only [hg]
      constructor
      · intro h
        exact absurd h (by simp)
      · intro h
        exact absurd h hu
    · intro _
      rw [hbr]
      refine ⟨hg, ?_⟩
      have hmod : pick % (getUnoccupiedCells boardNumCellsWide segCells food).length <
          (getUnoccupiedCells boardNumCellsWide segCells food).length :=
        Nat.mod_lt _ hlen
      simp [spawnNewPrey, List.getElem?_eq_getElem hmod]
    · intro g2
      simp [gameOver]

/-- C5 witness: the iff evaluated with the snake cells of the fresh
snake, no active food, on the Playing state. -/
theorem onPreyEaten_victorious_iff_w :
    ((onPreyEaten ⟨0, GameState.Playing⟩ boardNumCellsWide
        (snakeStart.segments.map (fun sg => sg.tgtCellPos)) none 0).1.gameState =
      GameState.Victorious ↔
      getUnoccupiedCells boardNumCellsWide
        (snakeStart.segments.map (fun sg => sg.tgtCellPos)) none = []) ∧
    ((onPreyEaten ⟨0, GameState.Playing⟩ boardNumCellsWide
        (snakeStart.segments.map (fun sg => sg.tgtCellPos)) none 0).1.gameState =
      GameState.Playing ∧
      ((onPreyEaten ⟨0, GameState.Playing⟩ boardNumCellsWide
        (snakeStart.segments.map (fun sg => sg.tgtCellPos)) none 0).2).isSome = true) :=
  ⟨(onPreyEaten_victorious_iff ⟨0, GameState.Playing⟩
      (snakeStart.segments.map (fun sg => sg.tgtCellPos)) none 0 rfl).1,
   (onPreyEaten_victorious_iff ⟨0, GameState.Playing⟩
      (snakeStart.segments.map (fun sg => sg.tgtCellPos)) none 0 rfl).2.1 (by decide)⟩

/-- C6: on a tick that survives and whose post move head target cell
equals the active food cell, the chain grows by exactly one segment whose
target and draw cell equal the current (post move) tail target cell, the
score increments by exactly one, and the new food cell is chosen from the
unoccupied cells of the grown chain. -/
theorem updateWithFood_eat_spec (s : Snake) (g : GameM) (dir : Vector2)
    (food : Vector2) (pick : Nat)
    (hne : s.segments ≠ [])
    (hnodeath : (s.update dir).2 = false)
    (hfood : (s.update dir).1.headTgtCell = food)
    (hcells : getUnoccupiedCells boardNumCellsWide
        (((s.update dir).1.growSegment).segments.map (fun sg => sg.tgtCellPos))
        none ≠ []) :
    (updateWithFood s g dir food pick).1.segments.length = s.segments.length + 1 ∧
    ((updateWithFood s g dir food pick).1.segments.getLast?.map
        (fun sg => sg.tgtCellPos)) =
      ((s.update dir).1.segments.getLast?.map (fun sg => sg.tgtCellPos)) ∧
    ((updateWithFood s g dir food pick).1.segments.getLast?.map
        (fun sg => sg.drawCellPos)) =
      ((s.update dir).1.segments.getLast?.map (fun sg =>
        (⟨(sg.tgtCellPos.x : ℚ), (sg.tgtCellPos.y : ℚ)⟩ : Vec2Q))) ∧
    (updateWithFood s g dir food pick).2.1.score = g.score + 1 ∧
    (∃ c, (updateWithFood s g dir food pick).2.2.1 = some c ∧
      c ∈ getUnoccupiedCells boardNumCellsWide
        (((s.update dir).1.growSegment).segments.map (fun sg => sg.tgtCellPos))
        none) := by
  have hmne : (s.update dir).1.segments ≠ [] := by
    intro hnil
    have hl : (s.update dir).1.segments.length = s.segments.length :=
      moveInDirection_length s dir
    rw [hnil] at hl
    exact hne (List.length_eq_zero.mp hl.symm)
  obtain ⟨lastSeg, hlast⟩ : ∃ z, (s.update dir).1.segments.getLast? = some z := by
    cases hl : (s.update dir).1.segments.getLast? with
    | none => exact absurd (List.getLast?_eq_none_iff.mp hl) hmne
    | some z => exact ⟨z, rfl⟩
  have hie : (s.update dir).1.segments.isEmpty = false := by
    rw [List.isEmpty_eq_false]
    exact hmne
  have hbr : updateWithFood s g dir food pick =
      ((s.update dir).1.growSegment,
        (onPreyEaten g boardNumCellsWide
          (((s.update dir).1.growSegment).segments.map (fun sg => sg.tgtCellPos))
          none pick).1,
        (onPreyEaten g boardNumCellsWide
          (((s.update dir).1.growSegment).segments.map (fun sg => sg.tgtCellPos))
          none pick).2,
        false) := by
    simp [updateWithFood, hnodeath, hfood]
  have hulen : 0 < (getUnoccupiedCells boardNumCellsWide
      (((s.update dir).1.growSegment).segments.map (fun sg => sg.tgtCellPos))
      none).length := List.length_pos.mpr hcells
  have hprey : onPreyEaten g boardNumCellsWide
      (((s.update dir).1.growSegment).segments.map (fun sg => sg.tgtCellPos))
      none pick =
      ({ g with score := g.score + 1 },
        spawnNewPrey (getUnoccupiedCells boardNumCellsWide
          (((s.update dir).1.growSegment).segments.map (fun sg => sg.tgtCellPos))
          none) pick) := by
    simp [onPreyEaten, hulen]
  refine ⟨?_, ?_, ?_, ?_, ?_⟩
  · rw [hbr]
    have hul : (s.update dir).1.segments.length = s.segments.length :=
      moveInDirection_length s dir
    rw [growSegment_length, hul]
  · rw [hbr]
    generalize (s.update dir).1 = S at hlast ⊢
    simp [Snake.growSegment, List.getLast?_concat, SnakeSegment.make, hlast]
  · rw [hbr]
    generalize (s.update dir).1 = S at hlast ⊢
    simp [Snake.growSegment, List.getLast?_concat, SnakeSegment.make, hlast]
  · rw [hbr]
    simp [hprey]
  · rw [hbr]
    simp only [hprey]
    generalize hU : getUnoccupiedCells boardNumCellsWide
      (((s.update dir).1.growSegment).segments.map (fun sg => sg.tgtCellPos))
      none = U at hulen ⊢
    have hmod : pick % U.length < U.length := Nat.mod_lt _ hulen
    refine ⟨U.get ⟨pick % U.length, hmod⟩, ?_, ?_⟩
    · simp [spawnNewPrey, List.getElem?_eq_getElem hmod]
    · exact List.get_mem U (pick % U.length) hmod

/-- C6 witness: the head at (4,4) with tail at (5,4) moving Up onto food
at (4,3). -/
theorem updateWithFood_eat_spec_w :
    (updateWithFood snakeC6 ⟨0, GameState.Playing⟩ dirUp ⟨4, 3⟩ 0).1.segments.length =
      snakeC6.segments.length + 1 ∧
    ((updateWithFood snakeC6 ⟨0, GameState.Playing⟩ dirUp ⟨4, 3⟩ 0).1.segments.getLast?.map
        (fun sg => sg.tgtCellPos)) =
      ((snakeC6.update dirUp).1.segments.getLast?.map (fun sg => sg.tgtCellPos)) ∧
    (updateWithFood snakeC6 ⟨0, GameState.Playing⟩ dirUp ⟨4, 3⟩ 0).2.1.score = 0 + 1 ∧
    (∃ c, (updateWithFood snakeC6 ⟨0, GameState.Playing⟩ dirUp ⟨4, 3⟩ 0).2.2.1 = some c ∧
      c ∈ getUnoccupiedCells boardNumCellsWide
        (((snakeC6.update dirUp).1.growSegment).segments.map (fun sg => sg.tgtCellPos))
        none) :=
  ⟨(updateWithFood_eat_spec snakeC6 ⟨0, GameState.Playing⟩ dirUp ⟨4, 3⟩ 0
      (by decide) (by decide) (by decide) (by decide)).1,
   (updateWithFood_eat_spec snakeC6 ⟨0, GameState.Playing⟩ dirUp ⟨4, 3⟩ 0
      (by decide) (by decide) (by decide) (by decide)).2.1,
   (updateWithFood_eat_spec snakeC6 ⟨0, GameState.Playing⟩ dirUp ⟨4, 3⟩ 0
      (by decide) (by decide) (by decide) (by decide)).2.2.2.1,
   (updateWithFood_eat_spec snakeC6 ⟨0, GameState.Playing⟩ dirUp ⟨4, 3⟩ 0
      (by decide) (by decide) (by decide) (by decide)).2.2.2.2⟩

/-- C8: the draw position update treats a none (non numeric) elapsed time
as zero movement, leaving the draw position unchanged; for a nonnegative
elapsed time the smoothing factor min(t, 1) lies in the closed interval
from 0 to 1, the new draw position is the linear interpolation toward the
target cell with that factor, and the distance to the target cell does
not grow in either coordinate. -/
theorem moveDrawPos_spec (seg : SnakeSegment) (t : ℚ) (ht : 0 ≤ t) :
    (seg.moveDrawPosTowardsTgtPos none).drawCellPos = seg.drawCellPos ∧
    0 ≤ min t 1 ∧ min t 1 ≤ 1 ∧
    (seg.moveDrawPosTowardsTgtPos (some t)).drawCellPos =
      ⟨MyMath.lerp seg.drawCellPos.x (seg.tgtCellPos.x : ℚ) (min t 1),
       MyMath.lerp seg.drawCellPos.y (seg.tgtCellPos.y : ℚ) (min t 1)⟩ ∧
    |(seg.moveDrawPosTowardsTgtPos (some t)).drawCellPos.x - (seg.tgtCellPos.x : ℚ)| ≤
      |seg.drawCellPos.x - (seg.tgtCellPos.x : ℚ)| ∧
    |(seg.moveDrawPosTowardsTgtPos (some t)).drawCellPos.y - (seg.tgtCellPos.y : ℚ)| ≤
      |seg.drawCellPos.y - (seg.tgtCellPos.y : ℚ)| := by
  have h0 : (0 : ℚ) ≤ min t 1 := le_min ht (by norm_num)
  have h1 : min t 1 ≤ 1 := min_le_right t 1
  refine ⟨?_, h0, h1, rfl, ?_, ?_⟩
  · simp [SnakeSegment.moveDrawPosTowardsTgtPos, MyMath.lerp]
  · exact lerp_dist_le seg.drawCellPos.x (seg.tgtCellPos.x : ℚ) (min t 1) h0 h1
  · exact lerp_dist_le seg.drawCellPos.y (seg.tgtCellPos.y : ℚ) (min t 1) h0 h1

/-- C8 witness: the interpolation statement evaluated on the head
segment of the two segment snake with elapsed time one half. -/
theorem moveDrawPos_spec_w :
    ((snakeC1.segments.get ⟨0, by decide⟩).moveDrawPosTowardsTgtPos
        none).drawCellPos = (snakeC1.segments.get ⟨0, by decide⟩).drawCellPos ∧
    ((snakeC1.segments.get ⟨0, by decide⟩).moveDrawPosTowardsTgtPos
        (some (1/2))).drawCellPos =
      ⟨MyMath.lerp (snakeC1.segments.get ⟨0, by decide⟩).drawCellPos.x
          (((snakeC1.segments.get ⟨0, by decide⟩).tgtCellPos.x : ℚ)) (min (1/2) 1),
       MyMath.lerp (snakeC1.segments.get ⟨0, by decide⟩).drawCellPos.y
          (((snakeC1.segments.get ⟨0, by decide⟩).tgtCellPos.y : ℚ)) (min (1/2) 1)⟩ :=
  ⟨(moveDrawPos_spec (snakeC1.segments.get ⟨0, by decide⟩) (1/2) (by norm_num)).1,
   (moveDrawPos_spec (snakeC1.segments.get ⟨0, by decide⟩) (1/2) (by norm_num)).2.2.2.1⟩

/-- C9: along every input history, the direction committed and returned
by updateDirection is never the exact opposite of the immediately
preceding committed direction, and a key input opposite to the committed
direction leaves the processor state unchanged: it is dropped, not
queued. -/
theorem pm_no_reversal (es : List PmEvent) :
    (pmUpdateDirection (pmRun es)).2 ≠ ((pmRun es).currentDirection).opposite ∧
    (∀ k : ArrowKey, k.dir = ((pmRun es).currentDirection).opposite →
      pmStep (pmRun es) (PmEvent.key k) = pmRun es) := by
  obtain ⟨hcur, hbuf⟩ := pmInv_run es
  constructor
  · cases hb : (pmRun es).bufferedDirection with
    | none =>
      have hret : (pmUpdateDirection (pmRun es)).2 = (pmRun es).currentDirection := by
        simp [pmUpdateDirection, hb]
      rw [hret]
      exact dir_opposite_ne _ hcur
    | some d =>
      have hret : (pmUpdateDirection (pmRun es)).2 = d := by
        simp [pmUpdateDirection, hb]
      rw [hret]
      exact (hbuf d hb).2
  · intro k hk
    simp [pmStep, pmOnKeyDown, hk]

/-- C9 witness: on the initial state (committed direction Up), pressing
Down is dropped and the committed direction after the tick is not Down. -/
theorem pm_no_reversal_w :
    (pmUpdateDirection (pmRun [])).2 ≠ ((pmRun []).currentDirection).opposite ∧
    pmStep (pmRun []) (PmEvent.key ArrowKey.down) = pmRun [] :=
  ⟨(pm_no_reversal []).1, (pm_no_reversal []).2 ArrowKey.down (by decide)⟩

/-- C10: moveToCell on a segment constructed as non controllable is a
no op, leaving the target cell and the draw position unchanged; on the
controllable head it sets the target cell to the given cell. -/
theorem moveToCell_controllable_only (seg : SnakeSegment) (cell : Vector2)
    (instant : Bool) :
    (seg.isControllable = false → seg.moveToCell cell instant = seg) ∧
    (seg.isControllable = true → (seg.moveToCell cell instant).tgtCellPos = cell) := by
  constructor
  · intro h
    simp [SnakeSegment.moveToCell, h]
  · intro h
    simp only [SnakeSegment.moveToCell, h]
    cases instant <;> simp

/-- C10 witness: the tail segment stays unchanged under moveToCell while
the head segment takes the given target cell. -/
theorem moveToCell_controllable_only_w :
    (snakeC1.segments.get ⟨1, by decide⟩).moveToCell ⟨3, 3⟩ true =
      snakeC1.segments.get ⟨1, by decide⟩ ∧
    ((snakeC1.segments.get ⟨0, by decide⟩).moveToCell ⟨3, 3⟩ false).tgtCellPos =
      ⟨3, 3⟩ :=
  ⟨(moveToCell_controllable_only (snakeC1.segments.get ⟨1, by decide⟩) ⟨3, 3⟩ true).1
      (by decide),
   (moveToCell_controllable_only (snakeC1.segments.get ⟨0, by decide⟩) ⟨3, 3⟩ false).2
      (by decide)⟩

end Snek
